import Mathlib

/-!
Shallow embedding of the lp-hedge-backtest repository.

Floating-point arithmetic in the Python source is modelled by exact real
arithmetic (`ℝ`, `Real.sqrt`); `ValueError` raises are modelled by
`Except VErr`, with one constructor per raise site.  `math.sqrt` of the
source is `Real.sqrt` (all claims only evaluate it at nonnegative inputs,
where the two agree).
-/

open scoped Real

namespace LPHedge

/-- Error kinds, one per `raise ValueError(...)` site of the sources. -/
inductive VErr
  | pricesMustBePositive        -- v3_math.amounts_from_L
  | liquidityMustBePositive     -- v3_math.amounts_from_L
  | plMustBeLtPu                -- v3_math.amounts_from_L
  | p0NotStrictlyWithin         -- v3_math.L_from_initial_usd
  | initialUsdNotPositive       -- v3_math.L_from_initial_usd
  | valuePerLNotPositive        -- v3_math.L_from_initial_usd
  | ethInPoolNotPositive        -- init_position.calc_usdt_for_eth_in_pool
  | priceNotInRange             -- init_position.calc_usdt_for_eth_in_pool
  | deltaSqrtInvNotPositive     -- init_position.calc_usdt_for_eth_in_pool
  | deltaSqrtNegative           -- init_position.calc_usdt_for_eth_in_pool
  | notEnoughDataPoints         -- backtest.run_backtest
  | invalidRangeDenom           -- backtest.run_backtest (L derivation)
deriving DecidableEq, Repr

/-- `v3_math.amounts_from_L(P, Pl, Pu, L)`: token amounts `(x, y)` at price
`P` for liquidity `L` in range `[Pl, Pu]`. -/
noncomputable def amounts_from_L (P Pl Pu L : ℝ) : Except VErr (ℝ × ℝ) :=
  if P ≤ 0 ∨ Pl ≤ 0 ∨ Pu ≤ 0 then .error .pricesMustBePositive
  else if L ≤ 0 then .error .liquidityMustBePositive
  else if Pl ≥ Pu then .error .plMustBeLtPu
  else
    let sqrtP := Real.sqrt P
    let sqrtPa := Real.sqrt Pl
    let sqrtPb := Real.sqrt Pu
    if P ≤ Pl then
      .ok (L * (1 / sqrtPa - 1 / sqrtPb), 0)
    else if P < Pu then
      .ok (L * (1 / sqrtP - 1 / sqrtPb), L * (sqrtP - sqrtPa))
    else
      .ok (0, L * (sqrtPb - sqrtPa))

/-- `v3_math.lp_value(P, Pl, Pu, L) = x * P + y`. -/
noncomputable def lp_value (P Pl Pu L : ℝ) : Except VErr ℝ := do
  let xy ← amounts_from_L P Pl Pu L
  return xy.1 * P + xy.2

/-- `v3_math.L_from_initial_usd(P0, Pl, Pu, initial_usd)`: liquidity such
that the position value at `P0` equals `initial_usd`. -/
noncomputable def L_from_initial_usd (P0 Pl Pu initial_usd : ℝ) : Except VErr ℝ :=
  if ¬ (Pl < P0 ∧ P0 < Pu) then .error .p0NotStrictlyWithin
  else if initial_usd ≤ 0 then .error .initialUsdNotPositive
  else
    let sqrtP0 := Real.sqrt P0
    let sqrtPa := Real.sqrt Pl
    let sqrtPb := Real.sqrt Pu
    let value_per_L := 2 * sqrtP0 - P0 / sqrtPb - sqrtPa
    if value_per_L ≤ 0 then .error .valuePerLNotPositive
    else .ok (initial_usd / value_per_L)

/-- `init_position.calc_usdt_for_eth_in_pool(price, lower, upper, eth_in_pool)`:
the complementary (USDT) amount required to deploy `eth_in_pool` of the
primary asset at `price` in range `[lower, upper]`. -/
noncomputable def calc_usdt_for_eth_in_pool (price lower upper eth_in_pool : ℝ) :
    Except VErr ℝ :=
  if eth_in_pool ≤ 0 then .error .ethInPoolNotPositive
  else if ¬ (lower < price ∧ price < upper) then .error .priceNotInRange
  else
    let sqrt_price := Real.sqrt price
    let sqrt_lower := Real.sqrt lower
    let sqrt_upper := Real.sqrt upper
    let delta_sqrt_inv := 1 / sqrt_price - 1 / sqrt_upper
    if delta_sqrt_inv ≤ 0 then .error .deltaSqrtInvNotPositive
    else
      let liquidity := eth_in_pool / delta_sqrt_inv
      let delta_sqrt := sqrt_price - sqrt_lower
      if delta_sqrt < 0 then .error .deltaSqrtNegative
      else .ok (liquidity * delta_sqrt)

/-- `backtest.calculate_k(P, Pl, Pu, k0)`: piecewise-linear hedge ratio. -/
noncomputable def calculate_k (P Pl Pu k0 : ℝ) : ℝ :=
  if P ≤ Pl then 1
  else if P ≥ Pu then 0
  else
    let mid := (Pl + Pu) / 2
    if P ≤ mid then 1 - (1 - k0) * (P - Pl) / (mid - Pl)
    else k0 - k0 * (P - mid) / (Pu - mid)

/-- One record of `rebalance_events` appended by `run_backtest` on a
triggered tick (the `ts` timestamp field is omitted: the engine's event
ordering is the list order, and no claim constrains timestamps). -/
structure RebalanceEvent where
  price : ℝ
  anchor_before : ℝ
  move : ℝ
  k : ℝ
  eth_now : ℝ
  H_before : ℝ
  H_target : ℝ
  delta_H : ℝ
  cash : ℝ
  hedge_pnl_mtm : ℝ

/-- Mutable run state of `run_backtest`'s iteration: hedge bookkeeping,
the trigger anchor, counters and the append-only event log. -/
structure BTState where
  anchor_price : ℝ
  current_H : ℝ
  cash : ℝ
  rebalance_count : ℕ
  cumulative_abs_delta_h : ℝ
  events : List RebalanceEvent

/-- Initial hedge state of `run_backtest`:
`initial_short_eth = eth_in_pool * hedge_k0`, `current_H = -initial_short_eth`,
`cash = 0 + initial_short_eth * P0`, `anchor_price = P0`, empty log. -/
noncomputable def init_state (P0 eth_in_pool hedge_k0 : ℝ) : BTState :=
  { anchor_price := P0
    current_H := -(eth_in_pool * hedge_k0)
    cash := eth_in_pool * hedge_k0 * P0
    rebalance_count := 0
    cumulative_abs_delta_h := 0
    events := [] }

/-- One iteration of `run_backtest`'s `for i in range(1, len(price_data))`
body at price `P_now`: skip when `move < threshold`, otherwise rebalance. -/
noncomputable def rebalance_step (Pl Pu L hedge_k0 threshold : ℝ)
    (st : BTState) (P_now : ℝ) : Except VErr BTState :=
  let move := |P_now - st.anchor_price| / st.anchor_price
  if move < threshold then .ok st
  else do
    let H_before := st.current_H
    let k := calculate_k P_now Pl Pu hedge_k0
    let exy ← amounts_from_L P_now Pl Pu L
    let eth_now := exy.1
    let target_H := -(eth_now * k)
    let delta_h := target_H - H_before
    let cash := st.cash - delta_h * P_now
    let hedge_pnl_mtm := cash + target_H * P_now
    return { anchor_price := P_now
             current_H := target_H
             cash := cash
             rebalance_count := st.rebalance_count + 1
             cumulative_abs_delta_h := st.cumulative_abs_delta_h + |delta_h|
             events := st.events ++
               [{ price := P_now
                  anchor_before := st.anchor_price
                  move := move
                  k := k
                  eth_now := eth_now
                  H_before := H_before
                  H_target := target_H
                  delta_H := delta_h
                  cash := cash
                  hedge_pnl_mtm := hedge_pnl_mtm }] }

/-- The whole iteration of `run_backtest` over the tail of the price data. -/
noncomputable def run_loop (Pl Pu L hedge_k0 threshold : ℝ) :
    BTState → List ℝ → Except VErr BTState
  | st, [] => .ok st
  | st, p :: ps => do
      let st' ← rebalance_step Pl Pu L hedge_k0 threshold st p
      run_loop Pl Pu L hedge_k0 threshold st' ps

/-- `config.P0_MODE`: either the string `"from_data"` or anything else
(the source compares `getattr(cfg, "P0_MODE", "fixed") == "from_data"`). -/
inductive P0Mode
  | fromData
  | fixed
deriving DecidableEq, Repr

/-- The ambient `config` module as read by `run_backtest` for its scalar
parameters.  `CSV_FILE`, `START_TS`, `END_TS` are not modelled: data loading
and window filtering are external ingestion, and the engine is given the
already-filtered price list directly. -/
structure Config where
  PL : ℝ
  PU : ℝ
  ETH_IN_POOL : ℝ
  HEDGE_K0 : ℝ
  THRESHOLD : ℝ
  P0_MODE : P0Mode
  P0 : ℝ

/-- The `summary` dict of `run_backtest`. -/
structure BacktestSummary where
  rebalance_count : ℕ
  cumulative_abs_delta_h : ℝ
  hedge_pnl : ℝ
  lp_pnl : ℝ
  total_pnl : ℝ
  final_price : ℝ
  lp_value_start : ℝ
  lp_value_end : ℝ
  final_hedge_position : ℝ
  P0 : ℝ
  Pl : ℝ
  Pu : ℝ
  L : ℝ
  eth_in_pool : ℝ
  initial_usdt_required : ℝ
  threshold : ℝ
  hedge_k0 : ℝ

/-- The return value of `run_backtest`. -/
structure BacktestResult where
  rebalance_events : List RebalanceEvent
  summary : BacktestSummary

/-- `backtest.run_backtest`: the engine.  The price series (already loaded
from CSV and filtered to the window) is `price_data`; each `Option`
argument mirrors a Python keyword argument defaulting to the ambient
config value when absent. -/
noncomputable def run_backtest (cfg : Config) (price_data : List ℝ)
    (Pl? Pu? eth_in_pool? hedge_k0? threshold? : Option ℝ) :
    Except VErr BacktestResult :=
  let Pl := Pl?.getD cfg.PL
  let Pu := Pu?.getD cfg.PU
  let eth_in_pool := eth_in_pool?.getD cfg.ETH_IN_POOL
  let hedge_k0 := hedge_k0?.getD cfg.HEDGE_K0
  let threshold := threshold?.getD cfg.THRESHOLD
  match price_data with
  | [] => .error .notEnoughDataPoints
  | [_] => .error .notEnoughDataPoints
  | p0 :: p1 :: rest => do
      let P0 := if cfg.P0_MODE = P0Mode.fromData then p0 else cfg.P0
      let initial_usdt ← calc_usdt_for_eth_in_pool P0 Pl Pu eth_in_pool
      let denom := 1 / Real.sqrt P0 - 1 / Real.sqrt Pu
      if denom ≤ 0 then .error .invalidRangeDenom
      else do
        let L := eth_in_pool / denom
        let _exy0 ← amounts_from_L P0 Pl Pu L
        let lp_value_start ← lp_value P0 Pl Pu L
        let st0 := init_state P0 eth_in_pool hedge_k0
        let stF ← run_loop Pl Pu L hedge_k0 threshold st0 (p1 :: rest)
        let final_price := (p1 :: rest).getLast (by simp)
        let hedge_pnl := stF.cash + stF.current_H * final_price
        let lp_value_end ← lp_value final_price Pl Pu L
        let lp_pnl := lp_value_end - lp_value_start
        let total_pnl := lp_pnl + hedge_pnl
        return { rebalance_events := stF.events
                 summary :=
                   { rebalance_count := stF.rebalance_count
                     cumulative_abs_delta_h := stF.cumulative_abs_delta_h
                     hedge_pnl := hedge_pnl
                     lp_pnl := lp_pnl
                     total_pnl := total_pnl
                     final_price := final_price
                     lp_value_start := lp_value_start
                     lp_value_end := lp_value_end
                     final_hedge_position := stF.current_H
                     P0 := P0
                     Pl := Pl
                     Pu := Pu
                     L := L
                     eth_in_pool := eth_in_pool
                     initial_usdt_required := initial_usdt
                     threshold := threshold
                     hedge_k0 := hedge_k0 } }

/-- The state produced by the triggered branch of `rebalance_step` (a
characterization helper, proved equal to the step's result below). -/
noncomputable def triggered_state (Pl Pu hedge_k0 : ℝ) (st : BTState)
    (P_now eth_now : ℝ) : BTState :=
  let k := calculate_k P_now Pl Pu hedge_k0
  let target_H := -(eth_now * k)
  let delta_h := target_H - st.current_H
  let cash := st.cash - delta_h * P_now
  { anchor_price := P_now
    current_H := target_H
    cash := cash
    rebalance_count := st.rebalance_count + 1
    cumulative_abs_delta_h := st.cumulative_abs_delta_h + |delta_h|
    events := st.events ++
      [{ price := P_now
         anchor_before := st.anchor_price
         move := |P_now - st.anchor_price| / st.anchor_price
         k := k
         eth_now := eth_now
         H_before := st.current_H
         H_target := target_H
         delta_H := delta_h
         cash := cash
         hedge_pnl_mtm := cash + target_H * P_now }] }

/-- The anchor implied by an event log: the last event's price, or the
initial anchor when no event has been emitted. -/
def last_anchor (a0 : ℝ) : List RebalanceEvent → ℝ
  | [] => a0
  | e :: es => last_anchor e.price es

/-- The event log is a trigger chain: each event's `anchor_before` is the
previous event's price (`a0` for the first) and each move is at least the
threshold. -/
def events_chain (threshold : ℝ) : ℝ → List RebalanceEvent → Prop
  | _, [] => True
  | a0, e :: es =>
      e.anchor_before = a0 ∧ threshold ≤ e.move ∧
        events_chain threshold e.price es

/-- A concrete ambient config used by the closed-form witnesses: range
`[1, 16]`, one unit of the primary asset, `k0 = 1/2`, a `10` (1000%)
trigger threshold, and the initial price taken from the data. -/
noncomputable def cfgW : Config :=
  { PL := 1
    PU := 16
    ETH_IN_POOL := 1
    HEDGE_K0 := 1/2
    THRESHOLD := 10
    P0_MODE := P0Mode.fromData
    P0 := 3150 }

/-- Ambient config with a fixed initial price `P0 = 4` (for C7). -/
noncomputable def cfgA : Config :=
  { PL := 1
    PU := 16
    ETH_IN_POOL := 1
    HEDGE_K0 := 1/2
    THRESHOLD := 10
    P0_MODE := P0Mode.fixed
    P0 := 4 }

/-- `cfgA` with only the ambient initial price changed to `9` (for C7). -/
noncomputable def cfgB : Config :=
  { PL := 1
    PU := 16
    ETH_IN_POOL := 1
    HEDGE_K0 := 1/2
    THRESHOLD := 10
    P0_MODE := P0Mode.fixed
    P0 := 9 }

/-- A config sharing `cfgA`'s initial-price settings but no other field
(for the amended C7's witness). -/
noncomputable def cfgC : Config :=
  { PL := 999
    PU := 1000
    ETH_IN_POOL := 7
    HEDGE_K0 := 9/10
    THRESHOLD := 1/100
    P0_MODE := P0Mode.fixed
    P0 := 4 }

/-! ### Helper lemmas -/

theorem except_bind_ok {α β : Type} (x : Except VErr α) (f : α → Except VErr β)
    (b : β) : (x >>= f) = .ok b ↔ ∃ a, x = .ok a ∧ f a = .ok b := by
  cases x with
  | error e =>
      constructor
      · intro h; exact absurd h (by simp [Bind.bind, Except.bind])
      · rintro ⟨a, h, _⟩; exact absurd h (by simp)
  | ok a =>
      constructor
      · intro h; exact ⟨a, rfl, h⟩
      · rintro ⟨a', h, hf⟩
        obtain rfl : a = a' := by simpa using h
        exact hf

theorem sqrt_four : Real.sqrt 4 = 2 := by
  rw [show (4 : ℝ) = 2 ^ 2 by norm_num, Real.sqrt_sq (by norm_num : (0:ℝ) ≤ 2)]

theorem sqrt_nine : Real.sqrt 9 = 3 := by
  rw [show (9 : ℝ) = 3 ^ 2 by norm_num, Real.sqrt_sq (by norm_num : (0:ℝ) ≤ 3)]

theorem sqrt_sixteen : Real.sqrt 16 = 4 := by
  rw [show (16 : ℝ) = 4 ^ 2 by norm_num, Real.sqrt_sq (by norm_num : (0:ℝ) ≤ 4)]

theorem amounts_from_L_below (P Pl Pu L : ℝ) (h1 : 0 < P) (h2 : 0 < Pl)
    (h3 : 0 < Pu) (hL : 0 < L) (hlt : Pl < Pu) (hP : P ≤ Pl) :
    amounts_from_L P Pl Pu L =
      .ok (L * (1 / Real.sqrt Pl - 1 / Real.sqrt Pu), 0) := by
  unfold amounts_from_L
  rw [if_neg (by push_neg; exact ⟨h1, h2, h3⟩), if_neg (not_le.mpr hL),
    if_neg (not_le.mpr hlt), if_pos hP]

theorem amounts_from_L_in (P Pl Pu L : ℝ) (h1 : 0 < P) (h2 : 0 < Pl)
    (h3 : 0 < Pu) (hL : 0 < L) (hlt : Pl < Pu) (hlo : Pl < P) (hhi : P < Pu) :
    amounts_from_L P Pl Pu L =
      .ok (L * (1 / Real.sqrt P - 1 / Real.sqrt Pu),
           L * (Real.sqrt P - Real.sqrt Pl)) := by
  unfold amounts_from_L
  rw [if_neg (by push_neg; exact ⟨h1, h2, h3⟩), if_neg (not_le.mpr hL),
    if_neg (not_le.mpr hlt), if_neg (not_le.mpr hlo), if_pos hhi]

theorem amounts_from_L_above (P Pl Pu L : ℝ) (h1 : 0 < P) (h2 : 0 < Pl)
    (h3 : 0 < Pu) (hL : 0 < L) (hlt : Pl < Pu) (hP : Pu ≤ P) :
    amounts_from_L P Pl Pu L =
      .ok (0, L * (Real.sqrt Pu - Real.sqrt Pl)) := by
  unfold amounts_from_L
  rw [if_neg (by push_neg; exact ⟨h1, h2, h3⟩), if_neg (not_le.mpr hL),
    if_neg (not_le.mpr hlt), if_neg (not_le.mpr (lt_of_lt_of_le hlt hP)),
    if_neg (not_lt.mpr hP)]

theorem sqrt_sub_pos {a b : ℝ} (ha : 0 ≤ a) (hab : a < b) :
    0 < Real.sqrt b - Real.sqrt a :=
  sub_pos.mpr (Real.sqrt_lt_sqrt ha hab)

theorem one_div_sqrt_sub_pos {a b : ℝ} (ha : 0 < a) (hab : a < b) :
    0 < 1 / Real.sqrt a - 1 / Real.sqrt b := by
  have h1 : 0 < Real.sqrt a := Real.sqrt_pos.mpr ha
  have h2 : Real.sqrt a < Real.sqrt b := Real.sqrt_lt_sqrt ha.le hab
  exact sub_pos.mpr (one_div_lt_one_div_of_lt h1 h2)

/-! ### C1 -/

/-- C1: for valid inputs (`P > 0`, `0 < Pl < Pu`, `L > 0`),
`amounts_from_L` returns, boundary-inclusive, the three regime formulas
with the claimed strict signs; and it errors whenever any price `≤ 0`,
`L ≤ 0`, or `Pl ≥ Pu`. -/
theorem amounts_from_L_spec (P Pl Pu L : ℝ) :
    ((0 < P ∧ 0 < Pl ∧ 0 < Pu ∧ 0 < L ∧ Pl < Pu) →
      ((P ≤ Pl →
          amounts_from_L P Pl Pu L =
            .ok (L * (1 / Real.sqrt Pl - 1 / Real.sqrt Pu), 0) ∧
          0 < L * (1 / Real.sqrt Pl - 1 / Real.sqrt Pu)) ∧
       (Pl < P → P < Pu →
          amounts_from_L P Pl Pu L =
            .ok (L * (1 / Real.sqrt P - 1 / Real.sqrt Pu),
                 L * (Real.sqrt P - Real.sqrt Pl)) ∧
          0 < L * (1 / Real.sqrt P - 1 / Real.sqrt Pu) ∧
          0 < L * (Real.sqrt P - Real.sqrt Pl)) ∧
       (Pu ≤ P →
          amounts_from_L P Pl Pu L =
            .ok (0, L * (Real.sqrt Pu - Real.sqrt Pl)) ∧
          0 < L * (Real.sqrt Pu - Real.sqrt Pl)))) ∧
    ((P ≤ 0 ∨ Pl ≤ 0 ∨ Pu ≤ 0 ∨ L ≤ 0 ∨ Pu ≤ Pl) →
      ∃ e, amounts_from_L P Pl Pu L = .error e) := by
  constructor
  · rintro ⟨h1, h2, h3, hL, hlt⟩
    refine ⟨fun hP => ⟨amounts_from_L_below P Pl Pu L h1 h2 h3 hL hlt hP, ?_⟩,
      fun hlo hhi => ⟨amounts_from_L_in P Pl Pu L h1 h2 h3 hL hlt hlo hhi, ?_, ?_⟩,
      fun hP => ⟨amounts_from_L_above P Pl Pu L h1 h2 h3 hL hlt hP, ?_⟩⟩
    · exact mul_pos hL (one_div_sqrt_sub_pos h2 hlt)
    · exact mul_pos hL (one_div_sqrt_sub_pos h1 hhi)
    · exact mul_pos hL (sqrt_sub_pos h2.le hlo)
    · exact mul_pos hL (sqrt_sub_pos h2.le hlt)
  · intro h
    unfold amounts_from_L
    split_ifs with h1 h2 h3 h4 h5 <;>
      first
      | exact ⟨_, rfl⟩
      | · exfalso
          push_neg at h1 h2 h3
          rcases h with h | h | h | h | h <;>
            [exact absurd h (not_le.mpr h1.1);
             exact absurd h (not_le.mpr h1.2.1);
             exact absurd h (not_le.mpr h1.2.2);
             exact absurd h (not_le.mpr h2);
             exact absurd h (not_le.mpr h3)]

/-- Witness for C1: the in-range regime at `(P,Pl,Pu,L) = (4,1,16,2)` and
the failure regime at inverted bounds `(2,3,1,5)`. -/
theorem amounts_from_L_spec_witness :
    amounts_from_L 4 1 16 2 =
      .ok (2 * (1 / Real.sqrt 4 - 1 / Real.sqrt 16),
           2 * (Real.sqrt 4 - Real.sqrt 1)) ∧
    (∃ e, amounts_from_L 2 3 1 5 = .error e) := by
  constructor
  · exact (((amounts_from_L_spec 4 1 16 2).1 (by norm_num)).2.1
      (by norm_num) (by norm_num)).1
  · exact (amounts_from_L_spec 2 3 1 5).2 (by norm_num)

/-! ### C4 -/

theorem calculate_k_at_most_Pl (P Pl Pu k0 : ℝ) (h : P ≤ Pl) :
    calculate_k P Pl Pu k0 = 1 := by
  unfold calculate_k
  rw [if_pos h]

theorem calculate_k_at_least_Pu (P Pl Pu k0 : ℝ) (hlt : Pl < Pu) (h : Pu ≤ P) :
    calculate_k P Pl Pu k0 = 0 := by
  unfold calculate_k
  rw [if_neg (not_le.mpr (lt_of_lt_of_le hlt h)), if_pos h]

theorem calculate_k_lower_half (P Pl Pu k0 : ℝ) (hlt : Pl < Pu) (hlo : Pl < P)
    (hmid : P ≤ (Pl + Pu) / 2) :
    calculate_k P Pl Pu k0 =
      1 - (1 - k0) * (P - Pl) / ((Pl + Pu) / 2 - Pl) := by
  have hPu : ¬ P ≥ Pu := not_le.mpr (lt_of_le_of_lt hmid (by linarith))
  unfold calculate_k
  rw [if_neg (not_le.mpr hlo), if_neg hPu, if_pos hmid]

theorem calculate_k_upper_half (P Pl Pu k0 : ℝ) (hlo : Pl < P) (hhi : P < Pu)
    (hmid : ¬ P ≤ (Pl + Pu) / 2) :
    calculate_k P Pl Pu k0 =
      k0 - k0 * (P - (Pl + Pu) / 2) / (Pu - (Pl + Pu) / 2) := by
  unfold calculate_k
  rw [if_neg (not_le.mpr hlo), if_neg (not_le.mpr hhi), if_neg hmid]

theorem calculate_k_bounds (P Pl Pu k0 : ℝ) (hlt : Pl < Pu) (hk0 : 0 ≤ k0)
    (hk1 : k0 ≤ 1) :
    0 ≤ calculate_k P Pl Pu k0 ∧ calculate_k P Pl Pu k0 ≤ 1 := by
  have hd : (0:ℝ) < (Pl + Pu) / 2 - Pl := by linarith
  have hd' : (0:ℝ) < Pu - (Pl + Pu) / 2 := by linarith
  rcases le_or_lt P Pl with hP | hP
  · rw [calculate_k_at_most_Pl P Pl Pu k0 hP]; norm_num
  · rcases le_or_lt Pu P with hP2 | hP2
    · rw [calculate_k_at_least_Pu P Pl Pu k0 hlt hP2]; norm_num
    · rcases le_or_lt P ((Pl + Pu) / 2) with hm | hm
      · rw [calculate_k_lower_half P Pl Pu k0 hlt hP hm]
        have ht0 : 0 ≤ (P - Pl) / ((Pl + Pu) / 2 - Pl) :=
          div_nonneg (by linarith) hd.le
        have ht1 : (P - Pl) / ((Pl + Pu) / 2 - Pl) ≤ 1 :=
          (div_le_one hd).mpr (by linarith)
        have hb : (1 - k0) * ((P - Pl) / ((Pl + Pu) / 2 - Pl)) ≤ 1 :=
          mul_le_one₀ (by linarith) ht0 ht1
        have hb0 : 0 ≤ (1 - k0) * ((P - Pl) / ((Pl + Pu) / 2 - Pl)) :=
          mul_nonneg (by linarith) ht0
        rw [mul_div_assoc]
        constructor <;> linarith
      · rw [calculate_k_upper_half P Pl Pu k0 hP hP2 (not_le.mpr hm)]
        have hs0 : 0 ≤ (P - (Pl + Pu) / 2) / (Pu - (Pl + Pu) / 2) :=
          div_nonneg (by linarith) hd'.le
        have hs1 : (P - (Pl + Pu) / 2) / (Pu - (Pl + Pu) / 2) ≤ 1 :=
          (div_le_one hd').mpr (by linarith)
        have hb : k0 * ((P - (Pl + Pu) / 2) / (Pu - (Pl + Pu) / 2)) ≤ k0 * 1 :=
          mul_le_mul_of_nonneg_left hs1 hk0
        have hb0 : 0 ≤ k0 * ((P - (Pl + Pu) / 2) / (Pu - (Pl + Pu) / 2)) :=
          mul_nonneg hk0 hs0
        rw [mul_div_assoc]
        constructor <;> linarith

/-- C4: for `0 < Pl < Pu` and `k0 ∈ [0,1]`, `calculate_k` is `1` at or
below `Pl`, `0` at or above `Pu`, `k0` at the arithmetic midpoint, linearly
interpolated between the anchor values on each half-segment, and always in
`[0,1]`. -/
theorem calculate_k_spec (Pl Pu k0 : ℝ) (hPl : 0 < Pl) (hlt : Pl < Pu)
    (hk0 : 0 ≤ k0) (hk1 : k0 ≤ 1) :
    (∀ P, P ≤ Pl → calculate_k P Pl Pu k0 = 1) ∧
    (∀ P, Pu ≤ P → calculate_k P Pl Pu k0 = 0) ∧
    calculate_k ((Pl + Pu) / 2) Pl Pu k0 = k0 ∧
    (∀ P, Pl ≤ P → P ≤ (Pl + Pu) / 2 →
      calculate_k P Pl Pu k0 =
        1 + (k0 - 1) * ((P - Pl) / ((Pl + Pu) / 2 - Pl))) ∧
    (∀ P, (Pl + Pu) / 2 ≤ P → P ≤ Pu →
      calculate_k P Pl Pu k0 =
        k0 + (0 - k0) * ((P - (Pl + Pu) / 2) / (Pu - (Pl + Pu) / 2))) ∧
    (∀ P, 0 ≤ calculate_k P Pl Pu k0 ∧ calculate_k P Pl Pu k0 ≤ 1) := by
  have hd : (0:ℝ) < (Pl + Pu) / 2 - Pl := by linarith
  have hd' : (0:ℝ) < Pu - (Pl + Pu) / 2 := by linarith
  have hmidk : calculate_k ((Pl + Pu) / 2) Pl Pu k0 = k0 := by
    rw [calculate_k_lower_half ((Pl + Pu) / 2) Pl Pu k0 hlt (by linarith) le_rfl,
      mul_div_assoc, div_self (ne_of_gt hd), mul_one]
    ring
  refine ⟨fun P hP => calculate_k_at_most_Pl P Pl Pu k0 hP,
    fun P hP => calculate_k_at_least_Pu P Pl Pu k0 hlt hP, hmidk, ?_, ?_, ?_⟩
  · intro P hlo hmid
    rcases eq_or_lt_of_le hlo with heq | hlo'
    · rw [← heq, calculate_k_at_most_Pl Pl Pl Pu k0 le_rfl]
      simp
    · rw [calculate_k_lower_half P Pl Pu k0 hlt hlo' hmid, mul_div_assoc]
      ring
  · intro P hmid hhi
    rcases eq_or_lt_of_le hhi with heq | hhi'
    · rw [heq, calculate_k_at_least_Pu Pu Pl Pu k0 hlt le_rfl,
        div_self (ne_of_gt hd')]
      ring
    · rcases eq_or_lt_of_le hmid with heq | hmid'
      · rw [← heq, hmidk]
        simp
      · rw [calculate_k_upper_half P Pl Pu k0 (by linarith) hhi' (not_le.mpr hmid'),
          mul_div_assoc]
        ring
  · intro P
    exact calculate_k_bounds P Pl Pu k0 hlt hk0 hk1

/-- Witness for C4 at `(Pl, Pu, k0) = (2, 6, 1/2)`: midpoint value and
boundary values. -/
theorem calculate_k_spec_witness :
    calculate_k 4 2 6 (1/2) = 1/2 ∧ calculate_k 2 2 6 (1/2) = 1 ∧
    calculate_k 6 2 6 (1/2) = 0 := by
  obtain ⟨h1, h2, h3, _, _, _⟩ :=
    calculate_k_spec 2 6 (1/2) (by norm_num) (by norm_num) (by norm_num) (by norm_num)
  refine ⟨?_, h1 2 le_rfl, h2 6 le_rfl⟩
  have := h3
  norm_num at this ⊢
  exact this

/-! ### C5 and C10 -/

theorem value_per_L_pos (P0 Pl Pu : ℝ) (hPl : 0 < Pl) (h1 : Pl < P0)
    (h2 : P0 < Pu) :
    0 < 2 * Real.sqrt P0 - P0 / Real.sqrt Pu - Real.sqrt Pl := by
  have hP0 : 0 < P0 := lt_trans hPl h1
  have hsP0 : 0 < Real.sqrt P0 := Real.sqrt_pos.mpr hP0
  have hlt1 : Real.sqrt Pl < Real.sqrt P0 := Real.sqrt_lt_sqrt hPl.le h1
  have hlt2 : Real.sqrt P0 < Real.sqrt Pu := Real.sqrt_lt_sqrt hP0.le h2
  have hdiv : P0 / Real.sqrt Pu < Real.sqrt P0 := by
    have h := div_lt_div_of_pos_left hP0 hsP0 hlt2
    rwa [Real.div_sqrt] at h
  linarith

theorem L_from_initial_usd_eq (P0 Pl Pu tv : ℝ) (hPl : 0 < Pl) (h1 : Pl < P0)
    (h2 : P0 < Pu) (htv : 0 < tv) :
    L_from_initial_usd P0 Pl Pu tv =
      .ok (tv / (2 * Real.sqrt P0 - P0 / Real.sqrt Pu - Real.sqrt Pl)) := by
  have hvpl := value_per_L_pos P0 Pl Pu hPl h1 h2
  unfold L_from_initial_usd
  rw [if_neg (not_not_intro ⟨h1, h2⟩), if_neg (not_le.mpr htv),
    if_neg (not_le.mpr hvpl)]

theorem lp_value_in (P Pl Pu L : ℝ) (h1 : 0 < P) (h2 : 0 < Pl) (h3 : 0 < Pu)
    (hL : 0 < L) (hlt : Pl < Pu) (hlo : Pl < P) (hhi : P < Pu) :
    lp_value P Pl Pu L =
      .ok (L * (1 / Real.sqrt P - 1 / Real.sqrt Pu) * P +
           L * (Real.sqrt P - Real.sqrt Pl)) := by
  unfold lp_value
  rw [amounts_from_L_in P Pl Pu L h1 h2 h3 hL hlt hlo hhi]
  rfl

/-- C5: for `0 < Pl < P0 < Pu` and `tv > 0`, `L_from_initial_usd` succeeds
and the round trip through `lp_value` recovers `tv` exactly in real
arithmetic (exact equality subsumes the spec's 1e-6 float tolerance at the
instance `Pl = 1800, Pu = 2200, P0 = 2000, tv = 100000`). -/
theorem L_from_initial_usd_roundtrip (P0 Pl Pu tv : ℝ) (hPl : 0 < Pl)
    (h1 : Pl < P0) (h2 : P0 < Pu) (htv : 0 < tv) :
    ∃ L, L_from_initial_usd P0 Pl Pu tv = .ok L ∧
      lp_value P0 Pl Pu L = .ok tv := by
  have hP0 : 0 < P0 := lt_trans hPl h1
  have hPu : 0 < Pu := lt_trans hP0 h2
  have hvpl := value_per_L_pos P0 Pl Pu hPl h1 h2
  have hL : 0 < tv / (2 * Real.sqrt P0 - P0 / Real.sqrt Pu - Real.sqrt Pl) :=
    div_pos htv hvpl
  refine ⟨_, L_from_initial_usd_eq P0 Pl Pu tv hPl h1 h2 htv, ?_⟩
  rw [lp_value_in P0 Pl Pu _ hP0 hPl hPu hL (lt_trans h1 h2) h1 h2]
  congr 1
  have hne : 2 * Real.sqrt P0 - P0 / Real.sqrt Pu - Real.sqrt Pl ≠ 0 :=
    ne_of_gt hvpl
  have key : (1 / Real.sqrt P0 - 1 / Real.sqrt Pu) * P0 +
      (Real.sqrt P0 - Real.sqrt Pl) =
      2 * Real.sqrt P0 - P0 / Real.sqrt Pu - Real.sqrt Pl := by
    rw [sub_mul, one_div_mul_eq_div, one_div_mul_eq_div, Real.div_sqrt]
    ring
  calc tv / (2 * Real.sqrt P0 - P0 / Real.sqrt Pu - Real.sqrt Pl) *
        (1 / Real.sqrt P0 - 1 / Real.sqrt Pu) * P0 +
      tv / (2 * Real.sqrt P0 - P0 / Real.sqrt Pu - Real.sqrt Pl) *
        (Real.sqrt P0 - Real.sqrt Pl)
      = tv / (2 * Real.sqrt P0 - P0 / Real.sqrt Pu - Real.sqrt Pl) *
          ((1 / Real.sqrt P0 - 1 / Real.sqrt Pu) * P0 +
           (Real.sqrt P0 - Real.sqrt Pl)) := by ring
    _ = tv / (2 * Real.sqrt P0 - P0 / Real.sqrt Pu - Real.sqrt Pl) *
          (2 * Real.sqrt P0 - P0 / Real.sqrt Pu - Real.sqrt Pl) := by rw [key]
    _ = tv := div_mul_cancel₀ tv hne

/-- Closed-form success and value of `calc_usdt_for_eth_in_pool` on valid
inputs. -/
theorem calc_usdt_eq (price lower upper x : ℝ) (hx : 0 < x) (hl : 0 < lower)
    (h1 : lower < price) (h2 : price < upper) :
    calc_usdt_for_eth_in_pool price lower upper x =
      .ok (x / (1 / Real.sqrt price - 1 / Real.sqrt upper) *
           (Real.sqrt price - Real.sqrt lower)) := by
  have hp : 0 < price := lt_trans hl h1
  have hd : 0 < 1 / Real.sqrt price - 1 / Real.sqrt upper :=
    one_div_sqrt_sub_pos hp h2
  have hds : 0 ≤ Real.sqrt price - Real.sqrt lower :=
    sub_nonneg.mpr (Real.sqrt_le_sqrt h1.le)
  unfold calc_usdt_for_eth_in_pool
  rw [if_neg (not_le.mpr hx), if_neg (not_not_intro ⟨h1, h2⟩),
    if_neg (not_le.mpr hd), if_neg (not_lt.mpr hds)]

/-- C10: once the strict-range preconditions hold, the degenerate-
denominator error branches of `L_from_initial_usd` and
`calc_usdt_for_eth_in_pool` are unreachable: the denominators are strictly
positive and each function returns a strictly positive result. -/
theorem degenerate_branches_unreachable (P0 Pl Pu tv price lower upper x : ℝ) :
    (0 < Pl → Pl < P0 → P0 < Pu → 0 < tv →
      0 < 2 * Real.sqrt P0 - P0 / Real.sqrt Pu - Real.sqrt Pl ∧
      ∃ L, L_from_initial_usd P0 Pl Pu tv = .ok L ∧ 0 < L) ∧
    (0 < lower → lower < price → price < upper → 0 < x →
      0 < 1 / Real.sqrt price - 1 / Real.sqrt upper ∧
      ∃ y, calc_usdt_for_eth_in_pool price lower upper x = .ok y ∧ 0 < y) := by
  constructor
  · intro hPl h1 h2 htv
    have hvpl := value_per_L_pos P0 Pl Pu hPl h1 h2
    exact ⟨hvpl, _, L_from_initial_usd_eq P0 Pl Pu tv hPl h1 h2 htv,
      div_pos htv hvpl⟩
  · intro hl h1 h2 hx
    have hp : 0 < price := lt_trans hl h1
    have hd : 0 < 1 / Real.sqrt price - 1 / Real.sqrt upper :=
      one_div_sqrt_sub_pos hp h2
    refine ⟨hd, _, calc_usdt_eq price lower upper x hx hl h1 h2, ?_⟩
    exact mul_pos (div_pos hx hd) (sqrt_sub_pos hl.le h1)

/-- Witness for C5: the spec's instance `Pl = 1800, Pu = 2200, P0 = 2000,
targetValue = 100000`. -/
theorem L_from_initial_usd_roundtrip_witness :
    ∃ L, L_from_initial_usd 2000 1800 2200 100000 = .ok L ∧
      lp_value 2000 1800 2200 L = .ok 100000 :=
  L_from_initial_usd_roundtrip 2000 1800 2200 100000 (by norm_num)
    (by norm_num) (by norm_num) (by norm_num)

/-- Witness for C10 at `(P0,Pl,Pu,tv) = (4,1,16,5)` and
`(price,lower,upper,x) = (4,1,16,1)`. -/
theorem degenerate_branches_unreachable_witness :
    (∃ L, L_from_initial_usd 4 1 16 5 = .ok L ∧ 0 < L) ∧
    (∃ y, calc_usdt_for_eth_in_pool 4 1 16 1 = .ok y ∧ 0 < y) :=
  ⟨((degenerate_branches_unreachable 4 1 16 5 4 1 16 1).1 (by norm_num)
      (by norm_num) (by norm_num) (by norm_num)).2,
   ((degenerate_branches_unreachable 4 1 16 5 4 1 16 1).2 (by norm_num)
      (by norm_num) (by norm_num) (by norm_num)).2⟩

/-! ### C6 -/

/-- C6: with the other two bounds fixed and a fixed positive primary
amount, `calc_usdt_for_eth_in_pool` is strictly increasing in the price,
strictly decreasing in the upper bound, and strictly decreasing in the
lower bound (equivalently: strictly increasing as the lower bound
decreases). -/
theorem calc_usdt_monotone (x : ℝ) (hx : 0 < x) :
    (∀ lower upper p1 p2, 0 < lower → lower < p1 → p1 < p2 → p2 < upper →
      ∀ y1 y2, calc_usdt_for_eth_in_pool p1 lower upper x = .ok y1 →
        calc_usdt_for_eth_in_pool p2 lower upper x = .ok y2 → y1 < y2) ∧
    (∀ lower price u1 u2, 0 < lower → lower < price → price < u1 → u1 < u2 →
      ∀ y1 y2, calc_usdt_for_eth_in_pool price lower u1 x = .ok y1 →
        calc_usdt_for_eth_in_pool price lower u2 x = .ok y2 → y2 < y1) ∧
    (∀ l1 l2 price upper, 0 < l1 → l1 < l2 → l2 < price → price < upper →
      ∀ y1 y2, calc_usdt_for_eth_in_pool price l1 upper x = .ok y1 →
        calc_usdt_for_eth_in_pool price l2 upper x = .ok y2 → y2 < y1) := by
  refine ⟨?_, ?_, ?_⟩
  · intro lower upper p1 p2 hl h1 h12 h2 y1 y2 hy1 hy2
    rw [calc_usdt_eq p1 lower upper x hx hl h1 (lt_trans h12 h2)] at hy1
    rw [calc_usdt_eq p2 lower upper x hx hl (lt_trans h1 h12) h2] at hy2
    injection hy1 with hy1
    injection hy2 with hy2
    subst hy1
    subst hy2
    have hp1 : 0 < p1 := lt_trans hl h1
    have hp2 : 0 < p2 := lt_trans hp1 h12
    have hd1 : 0 < 1 / Real.sqrt p1 - 1 / Real.sqrt upper :=
      one_div_sqrt_sub_pos hp1 (lt_trans h12 h2)
    have hd2 : 0 < 1 / Real.sqrt p2 - 1 / Real.sqrt upper :=
      one_div_sqrt_sub_pos hp2 h2
    have hs12 : Real.sqrt p1 < Real.sqrt p2 := Real.sqrt_lt_sqrt hp1.le h12
    have hdlt : 1 / Real.sqrt p2 - 1 / Real.sqrt upper <
        1 / Real.sqrt p1 - 1 / Real.sqrt upper := by
      have := one_div_lt_one_div_of_lt (Real.sqrt_pos.mpr hp1) hs12
      linarith
    have hLlt : x / (1 / Real.sqrt p1 - 1 / Real.sqrt upper) <
        x / (1 / Real.sqrt p2 - 1 / Real.sqrt upper) :=
      div_lt_div_of_pos_left hx hd2 hdlt
    have hy1pos : 0 < Real.sqrt p1 - Real.sqrt lower := sqrt_sub_pos hl.le h1
    have hylt : Real.sqrt p1 - Real.sqrt lower <
        Real.sqrt p2 - Real.sqrt lower := by linarith
    exact mul_lt_mul'' hLlt hylt (div_pos hx hd1).le hy1pos.le
  · intro lower price u1 u2 hl h1 h2 h12 y1 y2 hy1 hy2
    rw [calc_usdt_eq price lower u1 x hx hl h1 h2] at hy1
    rw [calc_usdt_eq price lower u2 x hx hl h1 (lt_trans h2 h12)] at hy2
    injection hy1 with hy1
    injection hy2 with hy2
    subst hy1
    subst hy2
    have hp : 0 < price := lt_trans hl h1
    have hu1 : 0 < u1 := lt_trans hp h2
    have hd1 : 0 < 1 / Real.sqrt price - 1 / Real.sqrt u1 :=
      one_div_sqrt_sub_pos hp h2
    have hd2 : 0 < 1 / Real.sqrt price - 1 / Real.sqrt u2 :=
      one_div_sqrt_sub_pos hp (lt_trans h2 h12)
    have hdu : 1 / Real.sqrt u2 < 1 / Real.sqrt u1 :=
      one_div_lt_one_div_of_lt (Real.sqrt_pos.mpr hu1)
        (Real.sqrt_lt_sqrt hu1.le h12)
    have hdlt : 1 / Real.sqrt price - 1 / Real.sqrt u1 <
        1 / Real.sqrt price - 1 / Real.sqrt u2 := by linarith
    have hLlt : x / (1 / Real.sqrt price - 1 / Real.sqrt u2) <
        x / (1 / Real.sqrt price - 1 / Real.sqrt u1) :=
      div_lt_div_of_pos_left hx hd1 hdlt
    exact mul_lt_mul_of_pos_right hLlt (sqrt_sub_pos hl.le h1)
  · intro l1 l2 price upper hl h12 h2 hu y1 y2 hy1 hy2
    rw [calc_usdt_eq price l1 upper x hx hl (lt_trans h12 h2) hu] at hy1
    rw [calc_usdt_eq price l2 upper x hx (lt_trans hl h12) h2 hu] at hy2
    injection hy1 with hy1
    injection hy2 with hy2
    subst hy1
    subst hy2
    have hp : 0 < price := lt_trans (lt_trans hl h12) h2
    have hd : 0 < 1 / Real.sqrt price - 1 / Real.sqrt upper :=
      one_div_sqrt_sub_pos hp hu
    have hslt : Real.sqrt l1 < Real.sqrt l2 := Real.sqrt_lt_sqrt hl.le h12
    exact mul_lt_mul_of_pos_left (by linarith) (div_pos hx hd)

/-- Witness for C6 (price direction) at
`lower = 1, upper = 16, p1 = 4, p2 = 9, x = 1`. -/
theorem calc_usdt_monotone_witness :
    ∃ y1 y2, calc_usdt_for_eth_in_pool 4 1 16 1 = .ok y1 ∧
      calc_usdt_for_eth_in_pool 9 1 16 1 = .ok y2 ∧ y1 < y2 := by
  refine ⟨_, _, calc_usdt_eq 4 1 16 1 (by norm_num) (by norm_num) (by norm_num)
      (by norm_num),
    calc_usdt_eq 9 1 16 1 (by norm_num) (by norm_num) (by norm_num)
      (by norm_num), ?_⟩
  exact (calc_usdt_monotone 1 one_pos).1 1 16 4 9 (by norm_num) (by norm_num)
    (by norm_num) (by norm_num) _ _
    (calc_usdt_eq 4 1 16 1 (by norm_num) (by norm_num) (by norm_num)
      (by norm_num))
    (calc_usdt_eq 9 1 16 1 (by norm_num) (by norm_num) (by norm_num)
      (by norm_num))

/-! ### Rebalance-step machinery -/

theorem rebalance_step_eq (Pl Pu L hedge_k0 threshold : ℝ) (st : BTState)
    (P_now : ℝ) :
    rebalance_step Pl Pu L hedge_k0 threshold st P_now =
      if |P_now - st.anchor_price| / st.anchor_price < threshold then .ok st
      else (amounts_from_L P_now Pl Pu L).map
        (fun exy => triggered_state Pl Pu hedge_k0 st P_now exy.1) := by
  simp only [rebalance_step, triggered_state]
  split_ifs
  · rfl
  · cases amounts_from_L P_now Pl Pu L <;> rfl

theorem rebalance_step_skip (Pl Pu L hedge_k0 threshold : ℝ) (st : BTState)
    (P_now : ℝ) (h : |P_now - st.anchor_price| / st.anchor_price < threshold) :
    rebalance_step Pl Pu L hedge_k0 threshold st P_now = .ok st := by
  rw [rebalance_step_eq, if_pos h]

theorem rebalance_step_triggered (Pl Pu L hedge_k0 threshold : ℝ)
    (st : BTState) (P_now : ℝ) (exy : ℝ × ℝ)
    (hmv : ¬ |P_now - st.anchor_price| / st.anchor_price < threshold)
    (hok : amounts_from_L P_now Pl Pu L = .ok exy) :
    rebalance_step Pl Pu L hedge_k0 threshold st P_now =
      .ok (triggered_state Pl Pu hedge_k0 st P_now exy.1) := by
  rw [rebalance_step_eq, if_neg hmv, hok]
  rfl

theorem rebalance_step_ok_inv (Pl Pu L hedge_k0 threshold : ℝ) (st : BTState)
    (P_now : ℝ) (st' : BTState)
    (h : rebalance_step Pl Pu L hedge_k0 threshold st P_now = .ok st') :
    (|P_now - st.anchor_price| / st.anchor_price < threshold ∧ st' = st) ∨
    (¬ |P_now - st.anchor_price| / st.anchor_price < threshold ∧
      ∃ exy, amounts_from_L P_now Pl Pu L = .ok exy ∧
        st' = triggered_state Pl Pu hedge_k0 st P_now exy.1) := by
  rw [rebalance_step_eq] at h
  split_ifs at h with hmv
  · left
    refine ⟨hmv, ?_⟩
    injection h with h
    exact h.symm
  · right
    refine ⟨hmv, ?_⟩
    cases hok : amounts_from_L P_now Pl Pu L with
    | error e => rw [hok] at h; exact absurd h (by simp [Except.map])
    | ok exy =>
        rw [hok] at h
        refine ⟨exy, rfl, ?_⟩
        injection h with h
        exact h.symm

theorem amounts_ok_facts (P Pl Pu L : ℝ) (exy : ℝ × ℝ)
    (hok : amounts_from_L P Pl Pu L = .ok exy) :
    0 < P ∧ 0 < Pl ∧ 0 < Pu ∧ 0 < L ∧ Pl < Pu ∧ 0 ≤ exy.1 ∧ 0 ≤ exy.2 := by
  unfold amounts_from_L at hok
  split_ifs at hok with h1 h2 h3 h4 h5
  · push_neg at h1 h2 h3
    obtain ⟨hP, hPl, hPu⟩ := h1
    injection hok with hok
    subst hok
    exact ⟨hP, hPl, hPu, h2, h3,
      (mul_pos h2 (one_div_sqrt_sub_pos hPl h3)).le, le_rfl⟩
  · push_neg at h1 h2 h3 h4
    obtain ⟨hP, hPl, hPu⟩ := h1
    injection hok with hok
    subst hok
    exact ⟨hP, hPl, hPu, h2, h3,
      (mul_pos h2 (one_div_sqrt_sub_pos hP h5)).le,
      (mul_pos h2 (sqrt_sub_pos hPl.le h4)).le⟩
  · push_neg at h1 h2 h3 h4 h5
    obtain ⟨hP, hPl, hPu⟩ := h1
    injection hok with hok
    subst hok
    exact ⟨hP, hPl, hPu, h2, h3, le_rfl,
      (mul_pos h2 (sqrt_sub_pos hPl.le h3)).le⟩

/-! ### C2 -/

/-- C2: on a triggered tick (`move ≥ threshold`), the rebalance step sets
`hedgeTarget = -(primaryNow * k)` with `(primaryNow, _)` from
`amounts_from_L` and `k` from `calculate_k`, changes the cash by exactly
`-(hedgeTarget - hedgeBefore) * Pnow`, makes `hedgeTarget` the current
position, and records in the appended event a mark-to-market hedge PnL
equal to the new cash plus the new position times `Pnow`. -/
theorem rebalance_step_spec (Pl Pu L hedge_k0 threshold : ℝ) (st : BTState)
    (P_now : ℝ) (st' : BTState)
    (hmv : threshold ≤ |P_now - st.anchor_price| / st.anchor_price)
    (h : rebalance_step Pl Pu L hedge_k0 threshold st P_now = .ok st') :
    ∃ exy, amounts_from_L P_now Pl Pu L = .ok exy ∧
      st'.current_H = -(exy.1 * calculate_k P_now Pl Pu hedge_k0) ∧
      st'.cash = st.cash - (st'.current_H - st.current_H) * P_now ∧
      ∃ e, st'.events = st.events ++ [e] ∧
        e.hedge_pnl_mtm = st'.cash + st'.current_H * P_now := by
  rcases rebalance_step_ok_inv Pl Pu L hedge_k0 threshold st P_now st' h with
    ⟨hlt, _⟩ | ⟨_, exy, hok, hst⟩
  · exact absurd hlt (not_lt.mpr hmv)
  · subst hst
    exact ⟨exy, hok, rfl, rfl, _, rfl, rfl⟩

/-- Witness for C2: a triggered tick at `P_now = 9` from the initial state
of a run with `Pl = 1, Pu = 16, L = 4, k0 = 1/2, threshold = 1`. -/
theorem rebalance_step_spec_witness :
    ∃ st', rebalance_step 1 16 4 (1/2) 1 (init_state 4 1 (1/2)) 9 = .ok st' ∧
      ∃ exy, amounts_from_L 9 1 16 4 = .ok exy ∧
        st'.current_H = -(exy.1 * calculate_k 9 1 16 (1/2)) ∧
        st'.cash = (init_state 4 1 (1/2)).cash -
          (st'.current_H - (init_state 4 1 (1/2)).current_H) * 9 ∧
        ∃ e, st'.events = (init_state 4 1 (1/2)).events ++ [e] ∧
          e.hedge_pnl_mtm = st'.cash + st'.current_H * 9 := by
  have hok : amounts_from_L 9 1 16 4 =
      .ok (4 * (1 / Real.sqrt 9 - 1 / Real.sqrt 16),
           4 * (Real.sqrt 9 - Real.sqrt 1)) :=
    amounts_from_L_in 9 1 16 4 (by norm_num) (by norm_num) (by norm_num)
      (by norm_num) (by norm_num) (by norm_num) (by norm_num)
  have hmv : (1:ℝ) ≤ |(9:ℝ) - (init_state 4 1 (1/2)).anchor_price| /
      (init_state 4 1 (1/2)).anchor_price := by
    simp only [init_state]
    rw [show |(9:ℝ) - 4| = 5 by rw [abs_of_nonneg] <;> norm_num]
    norm_num
  have hstep := rebalance_step_triggered 1 16 4 (1/2) 1 (init_state 4 1 (1/2))
    9 _ (not_lt.mpr hmv) hok
  exact ⟨_, hstep,
    rebalance_step_spec 1 16 4 (1/2) 1 (init_state 4 1 (1/2)) 9 _ hmv hstep⟩

/-! ### C3 -/

theorem last_anchor_append (a0 : ℝ) (es : List RebalanceEvent)
    (e : RebalanceEvent) : last_anchor a0 (es ++ [e]) = e.price := by
  induction es generalizing a0 with
  | nil => rfl
  | cons f fs ih => exact ih f.price

theorem last_anchor_cons (a0 : ℝ) (f : RebalanceEvent)
    (fs : List RebalanceEvent) :
    last_anchor a0 (f :: fs) = last_anchor f.price fs := rfl

theorem events_chain_append (threshold a0 : ℝ) (es : List RebalanceEvent)
    (e : RebalanceEvent) (hchain : events_chain threshold a0 es)
    (hanch : e.anchor_before = last_anchor a0 es)
    (hmv : threshold ≤ e.move) :
    events_chain threshold a0 (es ++ [e]) := by
  induction es generalizing a0 with
  | nil =>
      refine ⟨?_, hmv, trivial⟩
      simpa [last_anchor] using hanch
  | cons f fs ih =>
      obtain ⟨h1, h2, h3⟩ := hchain
      rw [last_anchor_cons] at hanch
      exact ⟨h1, h2, ih f.price h3 hanch⟩

theorem run_loop_chain (Pl Pu L hedge_k0 threshold : ℝ) (ps : List ℝ)
    (st st' : BTState) (a0 : ℝ)
    (h : run_loop Pl Pu L hedge_k0 threshold st ps = .ok st')
    (hchain : events_chain threshold a0 st.events)
    (hanch : st.anchor_price = last_anchor a0 st.events) :
    events_chain threshold a0 st'.events ∧
    st'.anchor_price = last_anchor a0 st'.events := by
  induction ps generalizing st with
  | nil =>
      unfold run_loop at h
      injection h with h
      subst h
      exact ⟨hchain, hanch⟩
  | cons p ps ih =>
      unfold run_loop at h
      rw [except_bind_ok] at h
      obtain ⟨st1, hstep, hrest⟩ := h
      rcases rebalance_step_ok_inv Pl Pu L hedge_k0 threshold st p st1 hstep
        with ⟨_, hst1⟩ | ⟨hmv, exy, _, hst1⟩
      · subst hst1
        exact ih _ hrest hchain hanch
      · subst hst1
        apply ih _ hrest
        · apply events_chain_append threshold a0 st.events _ hchain
          · simpa [triggered_state] using hanch
          · simpa [triggered_state] using not_lt.mp hmv
        · simp [triggered_state, last_anchor_append]

/-- C3: a tick mutates state and emits an event iff its move is at least
the threshold (boundary inclusive); the anchor is set to the tick's price
exactly on triggered ticks; and in any completed run every event's move is
at least the threshold and each event's `anchor_before` is the previous
event's price (`P0` for the first event). -/
theorem run_trigger_anchor_spec (Pl Pu L hedge_k0 threshold : ℝ) :
    (∀ st P_now,
      (|P_now - st.anchor_price| / st.anchor_price < threshold →
        rebalance_step Pl Pu L hedge_k0 threshold st P_now = .ok st) ∧
      (∀ st', threshold ≤ |P_now - st.anchor_price| / st.anchor_price →
        rebalance_step Pl Pu L hedge_k0 threshold st P_now = .ok st' →
        st'.anchor_price = P_now ∧
        ∃ e, st'.events = st.events ++ [e] ∧
          e.move = |P_now - st.anchor_price| / st.anchor_price ∧
          e.anchor_before = st.anchor_price ∧ e.price = P_now) ∧
      (∀ st', rebalance_step Pl Pu L hedge_k0 threshold st P_now = .ok st' →
        st'.events ≠ st.events →
        threshold ≤ |P_now - st.anchor_price| / st.anchor_price)) ∧
    (∀ P0 eth_in_pool ps st',
      run_loop Pl Pu L hedge_k0 threshold (init_state P0 eth_in_pool hedge_k0)
          ps = .ok st' →
      events_chain threshold P0 st'.events ∧
      st'.anchor_price = last_anchor P0 st'.events) := by
  constructor
  · intro st P_now
    refine ⟨fun hlt => rebalance_step_skip Pl Pu L hedge_k0 threshold st P_now
      hlt, ?_, ?_⟩
    · intro st' hmv hok
      rcases rebalance_step_ok_inv Pl Pu L hedge_k0 threshold st P_now st' hok
        with ⟨hlt, _⟩ | ⟨_, exy, _, hst⟩
      · exact absurd hlt (not_lt.mpr hmv)
      · subst hst
        exact ⟨rfl, _, rfl, rfl, rfl, rfl⟩
    · intro st' hok hne
      rcases rebalance_step_ok_inv Pl Pu L hedge_k0 threshold st P_now st' hok
        with ⟨_, hst⟩ | ⟨hmv, _, _, _⟩
      · exact absurd (by rw [hst]) hne
      · exact not_lt.mp hmv
  · intro P0 eth_in_pool ps st' h
    exact run_loop_chain Pl Pu L hedge_k0 threshold ps _ st' P0 h trivial rfl

/-- Witness for C3: a sub-threshold tick leaves the state unchanged, and a
one-tick triggered run produces a chained event log with the anchor at the
last event's price. -/
theorem run_trigger_anchor_spec_witness :
    rebalance_step 1 16 4 (1/2) 1 (init_state 4 1 (1/2)) 4 =
      .ok (init_state 4 1 (1/2)) ∧
    ∃ st', run_loop 1 16 4 (1/2) 1 (init_state 4 1 (1/2)) [9] = .ok st' ∧
      events_chain 1 4 st'.events ∧
      st'.anchor_price = last_anchor 4 st'.events := by
  obtain ⟨h1, h2⟩ := run_trigger_anchor_spec 1 16 4 (1/2) 1
  constructor
  · apply (h1 (init_state 4 1 (1/2)) 4).1
    simp only [init_state]
    norm_num
  · have hok : amounts_from_L 9 1 16 4 =
        .ok (4 * (1 / Real.sqrt 9 - 1 / Real.sqrt 16),
             4 * (Real.sqrt 9 - Real.sqrt 1)) :=
      amounts_from_L_in 9 1 16 4 (by norm_num) (by norm_num) (by norm_num)
        (by norm_num) (by norm_num) (by norm_num) (by norm_num)
    have hmv : ¬ |(9:ℝ) - (init_state 4 1 (1/2)).anchor_price| /
        (init_state 4 1 (1/2)).anchor_price < 1 := by
      simp only [init_state]
      rw [show |(9:ℝ) - 4| = 5 by rw [abs_of_nonneg] <;> norm_num]
      norm_num
    have hstep := rebalance_step_triggered 1 16 4 (1/2) 1
      (init_state 4 1 (1/2)) 9 _ hmv hok
    have hrun : run_loop 1 16 4 (1/2) 1 (init_state 4 1 (1/2)) [9] =
        .ok (triggered_state 1 16 (1/2) (init_state 4 1 (1/2)) 9
          (4 * (1 / Real.sqrt 9 - 1 / Real.sqrt 16))) := by
      unfold run_loop
      rw [hstep]
      rfl
    exact ⟨_, hrun, h2 4 1 [9] _ hrun⟩

/-! ### run_backtest inversion -/

theorem except_ok_bind {α β : Type} (a : α) (f : α → Except VErr β) :
    (Except.ok a >>= f) = f a := rfl

theorem run_backtest_ok_inv (cfg : Config) (price_data : List ℝ)
    (Pl? Pu? eth? k0? thr? : Option ℝ) (res : BacktestResult)
    (h : run_backtest cfg price_data Pl? Pu? eth? k0? thr? = .ok res) :
    ∃ p0 p1 rest initial_usdt exy0 lp_start stF lp_end,
      price_data = p0 :: p1 :: rest ∧
      (let Pl := Pl?.getD cfg.PL
       let Pu := Pu?.getD cfg.PU
       let eth_in_pool := eth?.getD cfg.ETH_IN_POOL
       let hedge_k0 := k0?.getD cfg.HEDGE_K0
       let threshold := thr?.getD cfg.THRESHOLD
       let P0 := if cfg.P0_MODE = P0Mode.fromData then p0 else cfg.P0
       let L := eth_in_pool / (1 / Real.sqrt P0 - 1 / Real.sqrt Pu)
       let final_price := (p1 :: rest).getLast (List.cons_ne_nil p1 rest)
       calc_usdt_for_eth_in_pool P0 Pl Pu eth_in_pool = .ok initial_usdt ∧
       0 < 1 / Real.sqrt P0 - 1 / Real.sqrt Pu ∧
       amounts_from_L P0 Pl Pu L = .ok exy0 ∧
       lp_value P0 Pl Pu L = .ok lp_start ∧
       run_loop Pl Pu L hedge_k0 threshold (init_state P0 eth_in_pool hedge_k0)
         (p1 :: rest) = .ok stF ∧
       lp_value final_price Pl Pu L = .ok lp_end ∧
       res.rebalance_events = stF.events ∧
       res.summary =
         { rebalance_count := stF.rebalance_count
           cumulative_abs_delta_h := stF.cumulative_abs_delta_h
           hedge_pnl := stF.cash + stF.current_H * final_price
           lp_pnl := lp_end - lp_start
           total_pnl := (lp_end - lp_start) +
             (stF.cash + stF.current_H * final_price)
           final_price := final_price
           lp_value_start := lp_start
           lp_value_end := lp_end
           final_hedge_position := stF.current_H
           P0 := P0
           Pl := Pl
           Pu := Pu
           L := L
           eth_in_pool := eth_in_pool
           initial_usdt_required := initial_usdt
           threshold := threshold
           hedge_k0 := hedge_k0 }) := by
  match price_data with
  | [] => exact absurd h (by simp [run_backtest])
  | [x] => exact absurd h (by simp [run_backtest])
  | p0 :: p1 :: rest =>
      simp only [run_backtest] at h
      rw [except_bind_ok] at h
      obtain ⟨initial_usdt, hiu, h⟩ := h
      by_cases hden : 1 / Real.sqrt (if cfg.P0_MODE = P0Mode.fromData
          then p0 else cfg.P0) - 1 / Real.sqrt (Pu?.getD cfg.PU) ≤ 0
      · rw [if_pos hden] at h
        exact absurd h (by simp)
      · rw [if_neg hden] at h
        rw [except_bind_ok] at h
        obtain ⟨exy0, hexy0, h⟩ := h
        rw [except_bind_ok] at h
        obtain ⟨lp_start, hlp, h⟩ := h
        rw [except_bind_ok] at h
        obtain ⟨stF, hloop, h⟩ := h
        rw [except_bind_ok] at h
        obtain ⟨lp_end, hlpe, h⟩ := h
        injection h with h
        subst h
        exact ⟨p0, p1, rest, initial_usdt, exy0, lp_start, stF, lp_end, rfl,
          hiu, not_le.mp hden, hexy0, hlp, hloop, hlpe, rfl, rfl⟩

/-! ### C8 -/

/-- C8: in every completed run, the summary's `final_price` is the last
point's price, `hedge_pnl = cash + currentPosition * finalPrice` (with
`cash` and `currentPosition` the final loop state's), `lp_pnl` is the LP
value at the final price minus the starting LP value, and
`total_pnl = hedge_pnl + lp_pnl` exactly. -/
theorem run_backtest_summary_spec (cfg : Config) (price_data : List ℝ)
    (Pl? Pu? eth? k0? thr? : Option ℝ) (res : BacktestResult)
    (h : run_backtest cfg price_data Pl? Pu? eth? k0? thr? = .ok res) :
    ∃ p0 p1 rest stF,
      price_data = p0 :: p1 :: rest ∧
      res.summary.final_price = (p1 :: rest).getLast (List.cons_ne_nil p1 rest) ∧
      run_loop res.summary.Pl res.summary.Pu res.summary.L res.summary.hedge_k0
        res.summary.threshold
        (init_state res.summary.P0 res.summary.eth_in_pool res.summary.hedge_k0)
        (p1 :: rest) = .ok stF ∧
      res.summary.final_hedge_position = stF.current_H ∧
      res.summary.hedge_pnl =
        stF.cash + res.summary.final_hedge_position * res.summary.final_price ∧
      lp_value res.summary.P0 res.summary.Pl res.summary.Pu res.summary.L =
        .ok res.summary.lp_value_start ∧
      lp_value res.summary.final_price res.summary.Pl res.summary.Pu
        res.summary.L = .ok res.summary.lp_value_end ∧
      res.summary.lp_pnl =
        res.summary.lp_value_end - res.summary.lp_value_start ∧
      res.summary.total_pnl = res.summary.hedge_pnl + res.summary.lp_pnl := by
  obtain ⟨p0, p1, rest, initial_usdt, exy0, lp_start, stF, lp_end, hdata,
    _, _, _, hlp, hloop, hlpe, _, hsum⟩ :=
    run_backtest_ok_inv cfg price_data Pl? Pu? eth? k0? thr? res h
  refine ⟨p0, p1, rest, stF, hdata, ?_⟩
  rw [hsum]
  exact ⟨rfl, hloop, rfl, rfl, hlp, hlpe, rfl, add_comm _ _⟩

/-! ### C9 -/

theorem calc_usdt_ok_eth_pos (price lower upper x y : ℝ)
    (hok : calc_usdt_for_eth_in_pool price lower upper x = .ok y) : 0 < x := by
  unfold calc_usdt_for_eth_in_pool at hok
  split_ifs at hok with h1 h2 h3 h4
  push_neg at h1
  exact h1

theorem run_loop_H_nonpos (Pl Pu L hedge_k0 threshold : ℝ)
    (hk0 : 0 ≤ hedge_k0) (hk1 : hedge_k0 ≤ 1) (ps : List ℝ) (st st' : BTState)
    (h : run_loop Pl Pu L hedge_k0 threshold st ps = .ok st')
    (hH : st.current_H ≤ 0) (hev : ∀ e ∈ st.events, e.H_target ≤ 0) :
    st'.current_H ≤ 0 ∧ ∀ e ∈ st'.events, e.H_target ≤ 0 := by
  induction ps generalizing st with
  | nil =>
      unfold run_loop at h
      injection h with h
      subst h
      exact ⟨hH, hev⟩
  | cons p ps ih =>
      unfold run_loop at h
      rw [except_bind_ok] at h
      obtain ⟨st1, hstep, hrest⟩ := h
      rcases rebalance_step_ok_inv Pl Pu L hedge_k0 threshold st p st1 hstep
        with ⟨_, hst1⟩ | ⟨_, exy, hok, hst1⟩
      · subst hst1
        exact ih _ hrest hH hev
      · subst hst1
        obtain ⟨_, _, _, _, hlt, hx, _⟩ := amounts_ok_facts p Pl Pu L exy hok
        have hk := calculate_k_bounds p Pl Pu hedge_k0 hlt hk0 hk1
        have htgt : -(exy.1 * calculate_k p Pl Pu hedge_k0) ≤ 0 :=
          neg_nonpos.mpr (mul_nonneg hx hk.1)
        apply ih _ hrest
        · exact htgt
        · intro e he
          simp only [triggered_state, List.mem_append, List.mem_singleton] at he
          rcases he with he | he
          · exact hev e he
          · rw [he]
            exact htgt

/-- C9: with `k0 ∈ [0,1]`, the hedge position is never long: the initial
position `-(primaryAmount * k0)` is nonpositive, and in every completed
run the final position and every event's hedge target are nonpositive. -/
theorem hedge_never_long (cfg : Config) (price_data : List ℝ)
    (Pl? Pu? eth? k0? thr? : Option ℝ) (res : BacktestResult)
    (hk0 : 0 ≤ k0?.getD cfg.HEDGE_K0) (hk1 : k0?.getD cfg.HEDGE_K0 ≤ 1)
    (h : run_backtest cfg price_data Pl? Pu? eth? k0? thr? = .ok res) :
    (∀ P0 eth_in_pool, 0 ≤ eth_in_pool →
      (init_state P0 eth_in_pool (k0?.getD cfg.HEDGE_K0)).current_H ≤ 0) ∧
    res.summary.final_hedge_position ≤ 0 ∧
    ∀ e ∈ res.rebalance_events, e.H_target ≤ 0 := by
  obtain ⟨p0, p1, rest, initial_usdt, exy0, lp_start, stF, lp_end, hdata,
    hiu, _, _, _, hloop, _, hevents, hsum⟩ :=
    run_backtest_ok_inv cfg price_data Pl? Pu? eth? k0? thr? res h
  have heth : 0 < eth?.getD cfg.ETH_IN_POOL :=
    calc_usdt_ok_eth_pos _ _ _ _ _ hiu
  have hinv := run_loop_H_nonpos _ _ _ _ _ hk0 hk1 (p1 :: rest) _ stF hloop
    (neg_nonpos.mpr (mul_nonneg heth.le hk0)) (by intro e he; cases he)
  refine ⟨?_, ?_, ?_⟩
  · intro P0 eth_in_pool he
    exact neg_nonpos.mpr (mul_nonneg he hk0)
  · rw [hsum]
    exact hinv.1
  · rw [hevents]
    exact hinv.2

/-! ### Concrete run evaluation (for witnesses) -/

theorem cusdt_at_4 : calc_usdt_for_eth_in_pool 4 1 16 1 = .ok 4 := by
  rw [calc_usdt_eq 4 1 16 1 (by norm_num) (by norm_num) (by norm_num)
    (by norm_num), sqrt_four, sqrt_sixteen, Real.sqrt_one]
  norm_num

theorem L_at_4 : (1:ℝ) / (1 / Real.sqrt 4 - 1 / Real.sqrt 16) = 4 := by
  rw [sqrt_four, sqrt_sixteen]
  norm_num

theorem amounts_at_4 : amounts_from_L 4 1 16 4 = .ok (1, 4) := by
  rw [amounts_from_L_in 4 1 16 4 (by norm_num) (by norm_num) (by norm_num)
    (by norm_num) (by norm_num) (by norm_num) (by norm_num),
    sqrt_four, sqrt_sixteen, Real.sqrt_one]
  norm_num

theorem lp_value_at_4 : lp_value 4 1 16 4 = .ok 8 := by
  rw [lp_value_in 4 1 16 4 (by norm_num) (by norm_num) (by norm_num)
    (by norm_num) (by norm_num) (by norm_num) (by norm_num),
    sqrt_four, sqrt_sixteen, Real.sqrt_one]
  norm_num

theorem skip_at_4 :
    rebalance_step 1 16 4 (1/2) 10 (init_state 4 1 (1/2)) 4 =
      .ok (init_state 4 1 (1/2)) := by
  apply rebalance_step_skip
  simp only [init_state]
  norm_num

theorem loop_at_44 :
    run_loop 1 16 4 (1/2) 10 (init_state 4 1 (1/2)) [4] =
      .ok (init_state 4 1 (1/2)) := by
  unfold run_loop
  rw [skip_at_4]
  rfl

theorem runW_ok :
    ∃ res, run_backtest cfgW [4, 4] (some 1) (some 16) (some 1) (some (1/2))
      (some 10) = .ok res := by
  cases hrr : run_backtest cfgW [4, 4] (some 1) (some 16) (some 1)
      (some (1/2)) (some 10) with
  | ok res => exact ⟨res, rfl⟩
  | error e =>
      exfalso
      simp only [run_backtest, cfgW, Option.getD_some, if_pos rfl, if_true] at hrr
      rw [cusdt_at_4, except_ok_bind,
        if_neg (by rw [sqrt_four, sqrt_sixteen]; norm_num :
          ¬ 1 / Real.sqrt 4 - 1 / Real.sqrt 16 ≤ 0),
        L_at_4, amounts_at_4, except_ok_bind, lp_value_at_4, except_ok_bind,
        loop_at_44, except_ok_bind, List.getLast_singleton,
        lp_value_at_4, except_ok_bind] at hrr
      exact Except.noConfusion hrr

/-- Witness for C8: a concrete completed run on price data `[4, 4]`. -/
theorem run_backtest_summary_spec_witness :
    ∃ res, run_backtest cfgW [4, 4] (some 1) (some 16) (some 1) (some (1/2))
        (some 10) = .ok res ∧
      res.summary.total_pnl = res.summary.hedge_pnl + res.summary.lp_pnl := by
  obtain ⟨res, hres⟩ := runW_ok
  obtain ⟨p0, p1, rest, stF, h1, h2, h3, h4, h5, h6, h7, h8, h9⟩ :=
    run_backtest_summary_spec cfgW [4, 4] (some 1) (some 16) (some 1)
      (some (1/2)) (some 10) res hres
  exact ⟨res, hres, h9⟩

/-- Witness for C9: on the same concrete run, the final hedge position is
nonpositive. -/
theorem hedge_never_long_witness :
    ∃ res, run_backtest cfgW [4, 4] (some 1) (some 16) (some 1) (some (1/2))
        (some 10) = .ok res ∧ res.summary.final_hedge_position ≤ 0 := by
  obtain ⟨res, hres⟩ := runW_ok
  have h := hedge_never_long cfgW [4, 4] (some 1) (some 16) (some 1)
    (some (1/2)) (some 10) res
    (by simp only [Option.getD_some]; norm_num)
    (by simp only [Option.getD_some]; norm_num) hres
  exact ⟨res, hres, h.2.1⟩

/-! ### C7 -/

theorem cusdt_at_9 : calc_usdt_for_eth_in_pool 9 1 16 1 = .ok 24 := by
  rw [calc_usdt_eq 9 1 16 1 (by norm_num) (by norm_num) (by norm_num)
    (by norm_num), sqrt_nine, sqrt_sixteen, Real.sqrt_one]
  norm_num

theorem L_at_9 : (1:ℝ) / (1 / Real.sqrt 9 - 1 / Real.sqrt 16) = 12 := by
  rw [sqrt_nine, sqrt_sixteen]
  norm_num

theorem amounts_at_9 : amounts_from_L 9 1 16 12 = .ok (1, 24) := by
  rw [amounts_from_L_in 9 1 16 12 (by norm_num) (by norm_num) (by norm_num)
    (by norm_num) (by norm_num) (by norm_num) (by norm_num),
    sqrt_nine, sqrt_sixteen, Real.sqrt_one]
  norm_num

theorem lp_value_at_9 : lp_value 9 1 16 12 = .ok 33 := by
  rw [lp_value_in 9 1 16 12 (by norm_num) (by norm_num) (by norm_num)
    (by norm_num) (by norm_num) (by norm_num) (by norm_num),
    sqrt_nine, sqrt_sixteen, Real.sqrt_one]
  norm_num

theorem lp_value_at_4_12 : lp_value 4 1 16 12 = .ok 24 := by
  rw [lp_value_in 4 1 16 12 (by norm_num) (by norm_num) (by norm_num)
    (by norm_num) (by norm_num) (by norm_num) (by norm_num),
    sqrt_four, sqrt_sixteen, Real.sqrt_one]
  norm_num

theorem skip_at_9 :
    rebalance_step 1 16 12 (1/2) 10 (init_state 9 1 (1/2)) 4 =
      .ok (init_state 9 1 (1/2)) := by
  apply rebalance_step_skip
  simp only [init_state]
  rw [show |(4:ℝ) - 9| = 5 by rw [abs_of_nonpos (by norm_num)]; norm_num]
  norm_num

theorem loop_at_94 :
    run_loop 1 16 12 (1/2) 10 (init_state 9 1 (1/2)) [4] =
      .ok (init_state 9 1 (1/2)) := by
  unfold run_loop
  rw [skip_at_9]
  rfl

theorem runA_ok :
    ∃ res, run_backtest cfgA [4, 4] (some 1) (some 16) (some 1) (some (1/2))
      (some 10) = .ok res := by
  cases hrr : run_backtest cfgA [4, 4] (some 1) (some 16) (some 1)
      (some (1/2)) (some 10) with
  | ok res => exact ⟨res, rfl⟩
  | error e =>
      exfalso
      simp only [run_backtest, cfgA, Option.getD_some] at hrr
      rw [if_neg (fun hc => P0Mode.noConfusion hc), cusdt_at_4, except_ok_bind,
        if_neg (by rw [sqrt_four, sqrt_sixteen]; norm_num :
          ¬ 1 / Real.sqrt 4 - 1 / Real.sqrt 16 ≤ 0),
        L_at_4, amounts_at_4, except_ok_bind, lp_value_at_4, except_ok_bind,
        loop_at_44, except_ok_bind, List.getLast_singleton,
        lp_value_at_4, except_ok_bind] at hrr
      exact Except.noConfusion hrr

theorem runB_ok :
    ∃ res, run_backtest cfgB [4, 4] (some 1) (some 16) (some 1) (some (1/2))
      (some 10) = .ok res := by
  cases hrr : run_backtest cfgB [4, 4] (some 1) (some 16) (some 1)
      (some (1/2)) (some 10) with
  | ok res => exact ⟨res, rfl⟩
  | error e =>
      exfalso
      simp only [run_backtest, cfgB, Option.getD_some] at hrr
      rw [if_neg (fun hc => P0Mode.noConfusion hc), cusdt_at_9, except_ok_bind,
        if_neg (by rw [sqrt_nine, sqrt_sixteen]; norm_num :
          ¬ 1 / Real.sqrt 9 - 1 / Real.sqrt 16 ≤ 0),
        L_at_9, amounts_at_9, except_ok_bind, lp_value_at_9, except_ok_bind,
        loop_at_94, except_ok_bind, List.getLast_singleton,
        lp_value_at_4_12, except_ok_bind] at hrr
      exact Except.noConfusion hrr

/-- Counterexample for C7: two invocations of `run_backtest` whose every
explicit scalar argument and price series are equal, under two ambient
configs that differ only in the `P0` initial-price setting (with
`P0_MODE = fixed`), return different results — the engine reads `cfg.P0`
and `cfg.P0_MODE` from the ambient config module even when every keyword
argument is supplied. -/
theorem run_backtest_ambient_P0_counterexample :
    run_backtest cfgA [4, 4] (some 1) (some 16) (some 1) (some (1/2))
      (some 10) ≠
    run_backtest cfgB [4, 4] (some 1) (some 16) (some 1) (some (1/2))
      (some 10) := by
  intro heq
  obtain ⟨resA, hA⟩ := runA_ok
  obtain ⟨resB, hB⟩ := runB_ok
  have h4 : resA.summary.P0 = 4 := by
    obtain ⟨p0, p1, rest, _, _, _, _, _, hdata, _, _, _, _, _, _, _, hsum⟩ :=
      run_backtest_ok_inv cfgA [4, 4] (some 1) (some 16) (some 1)
        (some (1/2)) (some 10) resA hA
    rw [hsum]
    simp [cfgA]
  have h9 : resB.summary.P0 = 9 := by
    obtain ⟨p0, p1, rest, _, _, _, _, _, hdata, _, _, _, _, _, _, _, hsum⟩ :=
      run_backtest_ok_inv cfgB [4, 4] (some 1) (some 16) (some 1)
        (some (1/2)) (some 10) resB hB
    rw [hsum]
    simp [cfgB]
  rw [hA, hB] at heq
  injection heq with heq
  rw [heq, h9] at h4
  norm_num at h4

/-- C7 (amended): determinism holds once the initial-price settings agree:
if two ambient configs have the same `P0_MODE` and `P0`, then any two
invocations of `run_backtest` with every configuration scalar supplied
explicitly and equal, on the same price series, return identical results —
no other field of the ambient config is consumed. -/
theorem run_backtest_explicit_args_determinism (cfg1 cfg2 : Config)
    (price_data : List ℝ) (Pl Pu eth_in_pool hedge_k0 threshold : ℝ)
    (hmode : cfg1.P0_MODE = cfg2.P0_MODE) (hP0 : cfg1.P0 = cfg2.P0) :
    run_backtest cfg1 price_data (some Pl) (some Pu) (some eth_in_pool)
      (some hedge_k0) (some threshold) =
    run_backtest cfg2 price_data (some Pl) (some Pu) (some eth_in_pool)
      (some hedge_k0) (some threshold) := by
  simp only [run_backtest, Option.getD_some, hmode, hP0]

/-- Witness for the amended C7: `cfgA` and `cfgC` share `P0_MODE` and `P0`
but differ in every other ambient field, and the two runs coincide. -/
theorem run_backtest_explicit_args_determinism_witness :
    run_backtest cfgA [4, 4] (some 1) (some 16) (some 1) (some (1/2))
      (some 10) =
    run_backtest cfgC [4, 4] (some 1) (some 16) (some 1) (some (1/2))
      (some 10) :=
  run_backtest_explicit_args_determinism cfgA cfgC [4, 4] 1 16 1 (1/2) 10
    rfl rfl

end LPHedge
